import Mathlib

/-!
# Memristor simulator: shallow embedding and verification

This file embeds the device-model engine of the memristor simulator
(`src/script.js`) in Lean 4 over real arithmetic and proves the spec's
claims about it.  JavaScript numbers are modelled as real numbers;
`Math.exp`, `Math.sin`, `Math.sinh` become `Real.exp`, `Real.sin`,
`Real.sinh`; `Math.pow` (real exponent) becomes `Real.rpow`; the
JavaScript `%` operator (remainder with the sign of the dividend,
truncated division) is modelled by `jsMod` below.  Each memristor class
becomes a structure carrying its parameters, its scalar state, and the
stored memristance `M` / conductance `W`; the constructor and the
`updateState` / `getCurrent` methods become functions on that structure,
translated clause by clause from the source.
-/

noncomputable section

open Real

/-- JavaScript `Math.trunc` / the implicit truncation in the `%` operator:
rounding toward zero. -/
def jsTrunc (r : ℝ) : ℤ :=
  if 0 ≤ r then ⌊r⌋ else ⌈r⌉

/-- JavaScript `%` on numbers: `x % y = x - y * trunc (x / y)`
(remainder carrying the sign of the dividend). -/
def jsMod (x y : ℝ) : ℝ :=
  x - y * (jsTrunc (x / y) : ℝ)

/-- JavaScript `Math.sign` (on real inputs; signed zero collapses to `0`). -/
def jsSign (x : ℝ) : ℝ :=
  if x < 0 then -1 else if 0 < x then 1 else 0

/-! ## Biolek model (`class BiolekMemristor`) -/

structure BiolekMemristor where
  mu_v : ℝ
  D : ℝ
  R_ON : ℝ
  R_OFF : ℝ
  w : ℝ
  p : ℝ
  M : ℝ
  W : ℝ

/-- `BiolekMemristor._updateMemristance`:
`M = R_ON * (w/D) + R_OFF * (1 - w/D); W = 1/M`. -/
def BiolekMemristor.updMem (m : BiolekMemristor) : BiolekMemristor :=
  let M' := m.R_ON * (m.w / m.D) + m.R_OFF * (1 - m.w / m.D)
  { m with M := M', W := 1 / M' }

/-- `BiolekMemristor` constructor: clamps `w_init` into `[0, D]`
(defaulting to `D/2` when `null`), then recomputes `M`, `W`. -/
def BiolekMemristor.mk' (mu_v D R_ON R_OFF : ℝ) (w_init : Option ℝ) (p : ℝ) :
    BiolekMemristor :=
  let w := match w_init with
    | some wi => max 0 (min wi D)
    | none => D / 2
  BiolekMemristor.updMem
    { mu_v := mu_v, D := D, R_ON := R_ON, R_OFF := R_OFF, w := w, p := p,
      M := 0, W := 0 }

/-- `BiolekMemristor.stepFunction`: `i >= 0 ? 1 : 0`. -/
def BiolekMemristor.stepFunction (i : ℝ) : ℝ :=
  if 0 ≤ i then 1 else 0

/-- `BiolekMemristor.windowFunction`: `1 - (x - step(-i))^(2p)`. -/
def BiolekMemristor.windowFunction (m : BiolekMemristor) (x i : ℝ) : ℝ :=
  1 - (x - BiolekMemristor.stepFunction (-i)) ^ (2 * m.p)

/-- `BiolekMemristor.getCurrent`: `V / M`. -/
def BiolekMemristor.getCurrent (m : BiolekMemristor) (V : ℝ) : ℝ :=
  V / m.M

/-- `BiolekMemristor.updateState`: one explicit Euler step, clamped into
`[0, D]`, followed by `_updateMemristance`. -/
def BiolekMemristor.updateState (m : BiolekMemristor) (V dt : ℝ) :
    BiolekMemristor :=
  let i := m.getCurrent V
  let f_w := m.windowFunction (m.w / m.D) i
  let dw_dt := m.mu_v * (m.R_ON / m.D) * i * f_w
  let w1 := m.w + dw_dt * dt
  let w2 := max 0 (min w1 m.D)
  BiolekMemristor.updMem { m with w := w2 }

/-! ## Joglekar model (`class JoglekarMemristor`) -/

structure JoglekarMemristor where
  mu_v : ℝ
  D : ℝ
  R_ON : ℝ
  R_OFF : ℝ
  w : ℝ
  p : ℝ
  M : ℝ
  W : ℝ

/-- `JoglekarMemristor._updateMemristance`. -/
def JoglekarMemristor.updMem (m : JoglekarMemristor) : JoglekarMemristor :=
  let M' := m.R_ON * (m.w / m.D) + m.R_OFF * (1 - m.w / m.D)
  { m with M := M', W := 1 / M' }

/-- `JoglekarMemristor` constructor. -/
def JoglekarMemristor.mk' (mu_v D R_ON R_OFF : ℝ) (w_init : Option ℝ) (p : ℝ) :
    JoglekarMemristor :=
  let w := match w_init with
    | some wi => max 0 (min wi D)
    | none => D / 2
  JoglekarMemristor.updMem
    { mu_v := mu_v, D := D, R_ON := R_ON, R_OFF := R_OFF, w := w, p := p,
      M := 0, W := 0 }

/-- `JoglekarMemristor.windowFunction`: `1 - (2x - 1)^(2p)`. -/
def JoglekarMemristor.windowFunction (m : JoglekarMemristor) (x : ℝ) : ℝ :=
  1 - (2 * x - 1) ^ (2 * m.p)

/-- `JoglekarMemristor.getCurrent`: `V / M`. -/
def JoglekarMemristor.getCurrent (m : JoglekarMemristor) (V : ℝ) : ℝ :=
  V / m.M

/-- `JoglekarMemristor.updateState`. -/
def JoglekarMemristor.updateState (m : JoglekarMemristor) (V dt : ℝ) :
    JoglekarMemristor :=
  let i := m.getCurrent V
  let f_w := m.windowFunction (m.w / m.D)
  let dw_dt := m.mu_v * (m.R_ON / m.D) * i * f_w
  let w1 := m.w + dw_dt * dt
  let w2 := max 0 (min w1 m.D)
  JoglekarMemristor.updMem { m with w := w2 }

/-! ## Linear ion drift model (`class LinearIonDriftMemristor`) -/

structure LinearIonDriftMemristor where
  mu_v : ℝ
  D : ℝ
  R_ON : ℝ
  R_OFF : ℝ
  w : ℝ
  M : ℝ
  W : ℝ

/-- `LinearIonDriftMemristor._updateMemristance`. -/
def LinearIonDriftMemristor.updMem (m : LinearIonDriftMemristor) :
    LinearIonDriftMemristor :=
  let M' := m.R_ON * (m.w / m.D) + m.R_OFF * (1 - m.w / m.D)
  { m with M := M', W := 1 / M' }

/-- `LinearIonDriftMemristor` constructor. -/
def LinearIonDriftMemristor.mk' (mu_v D R_ON R_OFF : ℝ) (w_init : Option ℝ) :
    LinearIonDriftMemristor :=
  let w := match w_init with
    | some wi => max 0 (min wi D)
    | none => D / 2
  LinearIonDriftMemristor.updMem
    { mu_v := mu_v, D := D, R_ON := R_ON, R_OFF := R_OFF, w := w,
      M := 0, W := 0 }

/-- `LinearIonDriftMemristor.getCurrent`: `V / M`. -/
def LinearIonDriftMemristor.getCurrent (m : LinearIonDriftMemristor) (V : ℝ) :
    ℝ :=
  V / m.M

/-- `LinearIonDriftMemristor.updateState`:
`dw_dt = (mu_v * R_ON / D) * i`, Euler step, clamp into `[0, D]`. -/
def LinearIonDriftMemristor.updateState (m : LinearIonDriftMemristor)
    (V dt : ℝ) : LinearIonDriftMemristor :=
  let i := m.getCurrent V
  let dw_dt := m.mu_v * m.R_ON / m.D * i
  let w1 := m.w + dw_dt * dt
  let w2 := max 0 (min w1 m.D)
  LinearIonDriftMemristor.updMem { m with w := w2 }

/-! ## VTEAM model (`class VTEAMMemristor`) -/

structure VTEAMMemristor where
  k_off : ℝ
  k_on : ℝ
  alpha_off : ℝ
  alpha_on : ℝ
  w_off : ℝ
  w_on : ℝ
  w : ℝ
  a_off : ℝ
  a_on : ℝ
  w_c : ℝ
  u_off : ℝ
  u_on : ℝ
  R_on : ℝ
  R_off : ℝ
  M : ℝ
  W : ℝ

/-- `VTEAMMemristor._updateMemristance`:
`λ = ln(R_off/R_on); M = R_on * exp((λ/(w_off - w_on)) * (w - w_on)); W = 1/M`. -/
def VTEAMMemristor.updMem (m : VTEAMMemristor) : VTEAMMemristor :=
  let lam := Real.log (m.R_off / m.R_on)
  let M' := m.R_on * Real.exp (lam / (m.w_off - m.w_on) * (m.w - m.w_on))
  { m with M := M', W := 1 / M' }

/-- `VTEAMMemristor` constructor: clamps `w_init` into `[w_on, w_off]`. -/
def VTEAMMemristor.mk' (k_off k_on alpha_off alpha_on w_off w_on w_init
    a_off a_on w_c u_off u_on R_on R_off : ℝ) : VTEAMMemristor :=
  VTEAMMemristor.updMem
    { k_off := k_off, k_on := k_on, alpha_off := alpha_off,
      alpha_on := alpha_on, w_off := w_off, w_on := w_on,
      w := min w_off (max w_on w_init),
      a_off := a_off, a_on := a_on, w_c := w_c, u_off := u_off, u_on := u_on,
      R_on := R_on, R_off := R_off, M := 0, W := 0 }

/-- `VTEAMMemristor.f_off`: `exp(-exp((w - a_off)/w_c))`. -/
def VTEAMMemristor.f_off (m : VTEAMMemristor) (w : ℝ) : ℝ :=
  Real.exp (-Real.exp ((w - m.a_off) / m.w_c))

/-- `VTEAMMemristor.f_on`: `exp(-exp(-(w - a_on)/w_c))`. -/
def VTEAMMemristor.f_on (m : VTEAMMemristor) (w : ℝ) : ℝ :=
  Real.exp (-Real.exp (-(w - m.a_on) / m.w_c))

/-- `VTEAMMemristor.getCurrent`:
`i = (u/R_on) * exp((-λ/(w_off - w_on)) * (w - w_on))`. -/
def VTEAMMemristor.getCurrent (m : VTEAMMemristor) (u : ℝ) : ℝ :=
  let lam := Real.log (m.R_off / m.R_on)
  let expTerm := Real.exp (-lam / (m.w_off - m.w_on) * (m.w - m.w_on))
  u / m.R_on * expTerm

/-- `VTEAMMemristor.updateState`: piecewise threshold rate law, Euler step,
clamp into `[w_on, w_off]`. -/
def VTEAMMemristor.updateState (m : VTEAMMemristor) (u dt : ℝ) :
    VTEAMMemristor :=
  let dw_dt :=
    if 0 < m.u_off ∧ m.u_off < u then
      m.k_off * (u / m.u_off - 1) ^ m.alpha_off * m.f_off m.w
    else if u < m.u_on ∧ m.u_on < 0 then
      m.k_on * (u / m.u_on - 1) ^ m.alpha_on * m.f_on m.w
    else 0
  VTEAMMemristor.updMem
    { m with w := min m.w_off (max m.w_on (m.w + dw_dt * dt)) }

/-! ## MMS model (`class MMSMemristor`) -/

structure MMSMemristor where
  R_on : ℝ
  R_off : ℝ
  U_on : ℝ
  U_off : ℝ
  tau : ℝ
  T : ℝ
  q : ℝ
  k : ℝ
  x : ℝ
  M : ℝ
  W : ℝ

/-- `MMSMemristor._updateMemristance`:
`W = x/R_on + (1 - x)/R_off; M = 1/W`. -/
def MMSMemristor.updMem (m : MMSMemristor) : MMSMemristor :=
  let W' := m.x / m.R_on + (1 - m.x) / m.R_off
  { m with W := W', M := 1 / W' }

/-- `MMSMemristor` constructor: clamps `x_init` into `[0, 1]` and fixes the
physical constants `q` (elementary charge) and `k` (Boltzmann). -/
def MMSMemristor.mk' (R_on R_off U_on U_off tau T x_init : ℝ) : MMSMemristor :=
  MMSMemristor.updMem
    { R_on := R_on, R_off := R_off, U_on := U_on, U_off := U_off,
      tau := tau, T := T, q := 1.602176634e-19, k := 1.380649e-23,
      x := max 0 (min x_init 1), M := 0, W := 0 }

/-- `MMSMemristor.getCurrent`: `V * W`. -/
def MMSMemristor.getCurrent (m : MMSMemristor) (V : ℝ) : ℝ :=
  V * m.W

/-- `MMSMemristor.updateState`: probabilistic occupancy update, clamped into
`[0, 1]`. -/
def MMSMemristor.updateState (m : MMSMemristor) (V dt : ℝ) : MMSMemristor :=
  let alpha := dt / m.tau
  let beta := m.q / (m.k * m.T)
  let P_on := alpha / (1 + Real.exp (-beta * (V - m.U_on)))
  let P_off := alpha * (1 - 1 / (1 + Real.exp (-beta * (V + m.U_off))))
  let N_on := P_on * (1 - m.x)
  let N_off := P_off * m.x
  let x1 := m.x + (N_on - N_off)
  MMSMemristor.updMem { m with x := max 0 (min x1 1) }

/-! ## Yakopcic model (`class YakopcicMemristor`) -/

structure YakopcicMemristor where
  A_p : ℝ
  A_n : ℝ
  U_p : ℝ
  U_n : ℝ
  alpha_p : ℝ
  alpha_n : ℝ
  x_p : ℝ
  x_n : ℝ
  a1 : ℝ
  a2 : ℝ
  b : ℝ
  x_on : ℝ
  x : ℝ
  M : ℝ
  W : ℝ

/-- `YakopcicMemristor._updateMemristance`:
`W = a1 * x * sinh(b); M = 1/W`. -/
def YakopcicMemristor.updMem (m : YakopcicMemristor) : YakopcicMemristor :=
  let W' := m.a1 * m.x * Real.sinh m.b
  { m with W := W', M := 1 / W' }

/-- `YakopcicMemristor` constructor: clamps `x_init` into `[x_on, 1]`. -/
def YakopcicMemristor.mk' (A_p A_n U_p U_n alpha_p alpha_n x_p x_n
    a1 a2 b x_init x_on : ℝ) : YakopcicMemristor :=
  YakopcicMemristor.updMem
    { A_p := A_p, A_n := A_n, U_p := U_p, U_n := U_n, alpha_p := alpha_p,
      alpha_n := alpha_n, x_p := x_p, x_n := x_n, a1 := a1, a2 := a2,
      b := b, x_on := x_on, x := min 1 (max x_on x_init), M := 0, W := 0 }

/-- `YakopcicMemristor.g`: threshold-gated voltage drive. -/
def YakopcicMemristor.g (m : YakopcicMemristor) (u : ℝ) : ℝ :=
  if m.U_p < u then m.A_p * (Real.exp u - Real.exp m.U_p)
  else if u < -m.U_n then -m.A_n * (Real.exp (-u) - Real.exp m.U_n)
  else 0

/-- `YakopcicMemristor.f_p`. -/
def YakopcicMemristor.f_p (m : YakopcicMemristor) (x : ℝ) : ℝ :=
  if m.x_p ≤ x then
    let wp := (m.x_p - x) / (1 - m.x_p) + 1
    Real.exp (-m.alpha_p * (x - m.x_p)) * wp
  else 1

/-- `YakopcicMemristor.f_n`. -/
def YakopcicMemristor.f_n (m : YakopcicMemristor) (x : ℝ) : ℝ :=
  if x ≤ 1 - m.x_n then
    let wn := x / (1 - m.x_n)
    Real.exp (m.alpha_n * (x + m.x_n - 1)) * wn
  else 1

/-- `YakopcicMemristor.f`: direction-dependent window. -/
def YakopcicMemristor.f (m : YakopcicMemristor) (x u : ℝ) : ℝ :=
  if 0 ≤ u then m.f_p x else m.f_n x

/-- `YakopcicMemristor.getCurrent`: asymmetric sinh current,
`a1 * x * sinh(b*u)` for `u ≥ 0`, `a2 * x * sinh(b*u)` otherwise. -/
def YakopcicMemristor.getCurrent (m : YakopcicMemristor) (u : ℝ) : ℝ :=
  if 0 ≤ u then m.a1 * m.x * Real.sinh (m.b * u)
  else m.a2 * m.x * Real.sinh (m.b * u)

/-- `YakopcicMemristor.updateState`: Euler step of `g(u) * f(x, u)`, clamped
into `[x_on, 1]`. -/
def YakopcicMemristor.updateState (m : YakopcicMemristor) (u dt : ℝ) :
    YakopcicMemristor :=
  let dx := m.g u * m.f m.x u
  YakopcicMemristor.updMem
    { m with x := min 1 (max m.x_on (m.x + dx * dt)) }

/-! ## Waveform generator (`function generateWaveform`) -/

/-- `generateWaveform(type, t, frequency, amplitude)`: the `switch` over the
waveform family, with the `default` branch producing the sine wave. -/
def generateWaveform (type : String) (t : List ℝ) (frequency amplitude : ℝ) :
    List ℝ :=
  let omega := 2 * Real.pi * frequency
  if type = "sine" then
    t.map fun time => amplitude * Real.sin (omega * time)
  else if type = "square" then
    t.map fun time => amplitude * jsSign (Real.sin (omega * time))
  else if type = "triangle" then
    t.map fun time =>
      let phase := jsMod (omega * time) (2 * Real.pi)
      if phase < Real.pi then amplitude * (2 * phase / Real.pi - 1)
      else amplitude * (3 - 2 * phase / Real.pi)
  else if type = "sawtooth" then
    t.map fun time =>
      let phase := jsMod (omega * time) (2 * Real.pi)
      amplitude * (2 * phase / (2 * Real.pi) - 1)
  else
    t.map fun time => amplitude * Real.sin (omega * time)

/-! ## Simulation driver (`function simulateMemristor`)

The driver is generic over the model: it only uses the `getCurrent` /
`updateState` pair, so we embed it parametrized by a state type `σ` and
those two operations, exactly mirroring the loop
`push(getCurrent(V[i])); updateState(V[i], dt)`. -/

/-- `simulateMemristor(memristor, V_seq, dt)`: for each voltage sample, first
read the current at the present state, then advance the state. -/
def simulateMemristor {σ : Type} (getCur : σ → ℝ → ℝ) (upd : σ → ℝ → ℝ → σ)
    (m : σ) (V_seq : List ℝ) (dt : ℝ) : List ℝ :=
  match V_seq with
  | [] => []
  | V :: rest => getCur m V :: simulateMemristor getCur upd (upd m V dt) rest dt

/-- The model state after consuming an initial segment of the voltage
sequence: the fold of `updateState` over the samples processed so far. -/
def stateAfter {σ : Type} (upd : σ → ℝ → ℝ → σ) (m : σ) (V_seq : List ℝ)
    (dt : ℝ) : σ :=
  V_seq.foldl (fun s V => upd s V dt) m

/-! ## Concrete default instances

Instances built by the constructors at the source's default (or UI-supplied)
parameter values, used to exercise the theorems below on concrete inputs. -/

/-- Biolek model at the source's default parameters. -/
def bmDefault : BiolekMemristor :=
  BiolekMemristor.mk' 1e-9 1e-8 100 16000 none 1

/-- Joglekar model at the source's default parameters. -/
def jmDefault : JoglekarMemristor :=
  JoglekarMemristor.mk' 1e-9 1e-8 100 16000 none 1

/-- Linear ion drift model at the source's default parameters. -/
def lmDefault : LinearIonDriftMemristor :=
  LinearIonDriftMemristor.mk' 1e-9 1e-8 100 16000 none

/-- VTEAM model at the source's default parameters. -/
def vmDefault : VTEAMMemristor :=
  VTEAMMemristor.mk' 5e-4 (-10) 3 1 3e-9 0 0 0.8 0.2 0.12 0.5 (-0.5) 100 2.5e3

/-- MMS model at the source's default parameters. -/
def mmDefault : MMSMemristor :=
  MMSMemristor.mk' 500 1500 0.27 0.27 1e-4 298.5 0

/-- Yakopcic model at the source's default parameters with the UI's initial
state `x_init = 0.11` (see `runSimulation`). -/
def ymUI : YakopcicMemristor :=
  YakopcicMemristor.mk' 4000 4000 0.5 0.5 1 5 0.3 0.3 0.17 0.17 0.05 0.11 0

/-- Yakopcic model as `ymUI` but with a strictly positive state floor
`x_on = 0.01`. -/
def ymPos : YakopcicMemristor :=
  YakopcicMemristor.mk' 4000 4000 0.5 0.5 1 5 0.3 0.3 0.17 0.17 0.05 0.11 0.01

/-! ## Helper lemmas -/

/-- A convex combination of two positive reals is positive. -/
lemma convex_comb_pos {a b t : ℝ} (ha : 0 < a) (hb : 0 < b) (h0 : 0 ≤ t)
    (h1 : t ≤ 1) : 0 < a * t + b * (1 - t) := by
  rcases eq_or_lt_of_le h0 with h | h
  · rw [← h]
    simpa using hb
  · have hb' : 0 ≤ b * (1 - t) := mul_nonneg hb.le (by linarith)
    have ha' : 0 < a * t := mul_pos ha h
    linarith

/-- The Biolek post-step state lies in `[0, D]`. -/
lemma biolek_w_mem (m : BiolekMemristor) (V dt : ℝ) (h : 0 ≤ m.D) :
    0 ≤ (m.updateState V dt).w ∧ (m.updateState V dt).w ≤ m.D := by
  simp only [BiolekMemristor.updateState, BiolekMemristor.updMem]
  exact ⟨le_max_left _ _, max_le h (min_le_right _ _)⟩

/-- The Joglekar post-step state lies in `[0, D]`. -/
lemma joglekar_w_mem (m : JoglekarMemristor) (V dt : ℝ)
    (h : 0 ≤ m.D) :
    0 ≤ (m.updateState V dt).w ∧ (m.updateState V dt).w ≤ m.D := by
  simp only [JoglekarMemristor.updateState, JoglekarMemristor.updMem]
  exact ⟨le_max_left _ _, max_le h (min_le_right _ _)⟩

/-- The linear-ion-drift post-step state lies in `[0, D]`. -/
lemma linear_w_mem (m : LinearIonDriftMemristor) (V dt : ℝ)
    (h : 0 ≤ m.D) :
    0 ≤ (m.updateState V dt).w ∧ (m.updateState V dt).w ≤ m.D := by
  simp only [LinearIonDriftMemristor.updateState, LinearIonDriftMemristor.updMem]
  exact ⟨le_max_left _ _, max_le h (min_le_right _ _)⟩

/-- The VTEAM post-step state lies in `[w_on, w_off]`. -/
lemma vteam_w_mem (m : VTEAMMemristor) (u dt : ℝ)
    (h : m.w_on ≤ m.w_off) :
    m.w_on ≤ (m.updateState u dt).w ∧ (m.updateState u dt).w ≤ m.w_off := by
  simp only [VTEAMMemristor.updateState, VTEAMMemristor.updMem]
  exact ⟨le_min h (le_max_left _ _), min_le_left _ _⟩

/-- The MMS post-step state lies in `[0, 1]`. -/
lemma mms_x_mem (m : MMSMemristor) (V dt : ℝ) :
    0 ≤ (m.updateState V dt).x ∧ (m.updateState V dt).x ≤ 1 := by
  simp only [MMSMemristor.updateState, MMSMemristor.updMem]
  exact ⟨le_max_left _ _, max_le zero_le_one (min_le_right _ _)⟩

/-- The Yakopcic post-step state lies in `[x_on, 1]`. -/
lemma yakopcic_x_mem (m : YakopcicMemristor) (u dt : ℝ)
    (h : m.x_on ≤ 1) :
    m.x_on ≤ (m.updateState u dt).x ∧ (m.updateState u dt).x ≤ 1 := by
  simp only [YakopcicMemristor.updateState, YakopcicMemristor.updMem]
  exact ⟨le_min h (le_max_left _ _), min_le_left _ _⟩

/-- C1: for every model variant, every pre-step state (hence every reachable
state), every voltage and every `dt`, the state after one `updateState` call
lies in the variant's closed domain — `[0, D]` for Biolek/Joglekar/Linear
(provided the domain is nonempty, `0 ≤ D`), `[w_on, w_off]` for VTEAM
(provided `w_on ≤ w_off`), `[0, 1]` for MMS unconditionally, and `[x_on, 1]`
for Yakopcic (provided `x_on ≤ 1`): the Euler step result is clamped into the
domain, never rejected. -/
theorem advance_state_in_domain
    (bm : BiolekMemristor) (jm : JoglekarMemristor)
    (lm : LinearIonDriftMemristor) (vm : VTEAMMemristor) (mm : MMSMemristor)
    (ym : YakopcicMemristor) (V dt : ℝ) :
    (0 ≤ bm.D →
      0 ≤ (bm.updateState V dt).w ∧ (bm.updateState V dt).w ≤ bm.D) ∧
    (0 ≤ jm.D →
      0 ≤ (jm.updateState V dt).w ∧ (jm.updateState V dt).w ≤ jm.D) ∧
    (0 ≤ lm.D →
      0 ≤ (lm.updateState V dt).w ∧ (lm.updateState V dt).w ≤ lm.D) ∧
    (vm.w_on ≤ vm.w_off →
      vm.w_on ≤ (vm.updateState V dt).w ∧ (vm.updateState V dt).w ≤ vm.w_off) ∧
    (0 ≤ (mm.updateState V dt).x ∧ (mm.updateState V dt).x ≤ 1) ∧
    (ym.x_on ≤ 1 →
      ym.x_on ≤ (ym.updateState V dt).x ∧ (ym.updateState V dt).x ≤ 1) :=
  ⟨biolek_w_mem bm V dt, joglekar_w_mem jm V dt, linear_w_mem lm V dt, vteam_w_mem vm V dt,
    mms_x_mem mm V dt, yakopcic_x_mem ym V dt⟩

/-- Witness for `advance_state_in_domain` at the default instances with
`V = 1`, `dt = 1e-9`. -/
theorem advance_state_in_domain_witness :
    (0 ≤ bmDefault.D ∧ vmDefault.w_on ≤ vmDefault.w_off ∧ ymUI.x_on ≤ 1) ∧
    (0 ≤ (bmDefault.updateState 1 1e-9).w ∧
      (bmDefault.updateState 1 1e-9).w ≤ bmDefault.D) ∧
    (0 ≤ (jmDefault.updateState 1 1e-9).w ∧
      (jmDefault.updateState 1 1e-9).w ≤ jmDefault.D) ∧
    (0 ≤ (lmDefault.updateState 1 1e-9).w ∧
      (lmDefault.updateState 1 1e-9).w ≤ lmDefault.D) ∧
    (vmDefault.w_on ≤ (vmDefault.updateState 1 1e-9).w ∧
      (vmDefault.updateState 1 1e-9).w ≤ vmDefault.w_off) ∧
    (0 ≤ (mmDefault.updateState 1 1e-9).x ∧
      (mmDefault.updateState 1 1e-9).x ≤ 1) ∧
    (ymUI.x_on ≤ (ymUI.updateState 1 1e-9).x ∧
      (ymUI.updateState 1 1e-9).x ≤ 1) := by
  have h := advance_state_in_domain bmDefault jmDefault lmDefault vmDefault
    mmDefault ymUI 1 1e-9
  refine ⟨⟨?_, ?_, ?_⟩, h.1 ?_, h.2.1 ?_, h.2.2.1 ?_, h.2.2.2.1 ?_,
    h.2.2.2.2.1, h.2.2.2.2.2 ?_⟩ <;>
    norm_num [bmDefault, jmDefault, lmDefault, vmDefault, ymUI,
      BiolekMemristor.mk', BiolekMemristor.updMem, JoglekarMemristor.mk',
      JoglekarMemristor.updMem, LinearIonDriftMemristor.mk',
      LinearIonDriftMemristor.updMem, VTEAMMemristor.mk',
      VTEAMMemristor.updMem, YakopcicMemristor.mk', YakopcicMemristor.updMem]

/-- C8: for every model (any state type with a `getCurrent`/`updateState`
pair), every voltage sequence and every `dt`, the current sequence returned
by `simulateMemristor` has exactly the length of the voltage sequence. -/
theorem simulate_length {σ : Type} (getCur : σ → ℝ → ℝ) (upd : σ → ℝ → ℝ → σ)
    (m : σ) (V_seq : List ℝ) (dt : ℝ) :
    (simulateMemristor getCur upd m V_seq dt).length = V_seq.length := by
  induction V_seq generalizing m with
  | nil => rfl
  | cons V rest ih => simp [simulateMemristor, ih]

/-- C9: two runs of `simulateMemristor`, each on a freshly constructed model
with identical model kind, identical constructor arguments, identical voltage
sequence and identical `dt`, produce identical current sequences — the
computation is a pure function of those inputs, with no randomness or hidden
state, for each of the six variants. -/
theorem simulate_deterministic (mu_v D R_ON R_OFF p w1 w2 w3 w4 w5 w6 w7 w8
    w9 w10 w11 w12 w13 w14 x1 x2 x3 x4 x5 x6 x7 x8 x9 x10 x11 x12 x13 : ℝ)
    (w_init : Option ℝ) (V_seq : List ℝ) (dt : ℝ) :
    simulateMemristor BiolekMemristor.getCurrent BiolekMemristor.updateState
        (BiolekMemristor.mk' mu_v D R_ON R_OFF w_init p) V_seq dt =
      simulateMemristor BiolekMemristor.getCurrent BiolekMemristor.updateState
        (BiolekMemristor.mk' mu_v D R_ON R_OFF w_init p) V_seq dt ∧
    simulateMemristor JoglekarMemristor.getCurrent
        JoglekarMemristor.updateState
        (JoglekarMemristor.mk' mu_v D R_ON R_OFF w_init p) V_seq dt =
      simulateMemristor JoglekarMemristor.getCurrent
        JoglekarMemristor.updateState
        (JoglekarMemristor.mk' mu_v D R_ON R_OFF w_init p) V_seq dt ∧
    simulateMemristor LinearIonDriftMemristor.getCurrent
        LinearIonDriftMemristor.updateState
        (LinearIonDriftMemristor.mk' mu_v D R_ON R_OFF w_init) V_seq dt =
      simulateMemristor LinearIonDriftMemristor.getCurrent
        LinearIonDriftMemristor.updateState
        (LinearIonDriftMemristor.mk' mu_v D R_ON R_OFF w_init) V_seq dt ∧
    simulateMemristor VTEAMMemristor.getCurrent VTEAMMemristor.updateState
        (VTEAMMemristor.mk' w1 w2 w3 w4 w5 w6 w7 w8 w9 w10 w11 w12 w13 w14)
        V_seq dt =
      simulateMemristor VTEAMMemristor.getCurrent VTEAMMemristor.updateState
        (VTEAMMemristor.mk' w1 w2 w3 w4 w5 w6 w7 w8 w9 w10 w11 w12 w13 w14)
        V_seq dt ∧
    simulateMemristor MMSMemristor.getCurrent MMSMemristor.updateState
        (MMSMemristor.mk' x1 x2 x3 x4 x5 x6 x7) V_seq dt =
      simulateMemristor MMSMemristor.getCurrent MMSMemristor.updateState
        (MMSMemristor.mk' x1 x2 x3 x4 x5 x6 x7) V_seq dt ∧
    simulateMemristor YakopcicMemristor.getCurrent
        YakopcicMemristor.updateState
        (YakopcicMemristor.mk' x1 x2 x3 x4 x5 x6 x7 x8 x9 x10 x11 x12 x13)
        V_seq dt =
      simulateMemristor YakopcicMemristor.getCurrent
        YakopcicMemristor.updateState
        (YakopcicMemristor.mk' x1 x2 x3 x4 x5 x6 x7 x8 x9 x10 x11 x12 x13)
        V_seq dt :=
  ⟨rfl, rfl, rfl, rfl, rfl, rfl⟩

/-- C10: for every model variant and every state, the current reported at
zero applied voltage is zero — the I-V curve of every variant is pinched at
the origin. -/
theorem zero_voltage_zero_current
    (bm : BiolekMemristor) (jm : JoglekarMemristor)
    (lm : LinearIonDriftMemristor) (vm : VTEAMMemristor) (mm : MMSMemristor)
    (ym : YakopcicMemristor) :
    bm.getCurrent 0 = 0 ∧ jm.getCurrent 0 = 0 ∧ lm.getCurrent 0 = 0 ∧
      vm.getCurrent 0 = 0 ∧ mm.getCurrent 0 = 0 ∧ ym.getCurrent 0 = 0 := by
  refine ⟨?_, ?_, ?_, ?_, ?_, ?_⟩
  · simp [BiolekMemristor.getCurrent]
  · simp [JoglekarMemristor.getCurrent]
  · simp [LinearIonDriftMemristor.getCurrent]
  · simp [VTEAMMemristor.getCurrent]
  · simp [MMSMemristor.getCurrent]
  · simp [YakopcicMemristor.getCurrent]

/-- Element `k` of the simulated current sequence is the current read at the
state obtained by folding `updateState` over the first `k` voltage samples:
the current at step `k` is evaluated on the state before step `k`'s update. -/
lemma simulateMemristor_getElem {σ : Type} (getCur : σ → ℝ → ℝ)
    (upd : σ → ℝ → ℝ → σ) (dt : ℝ) :
    ∀ (V_seq : List ℝ) (m : σ) (k : ℕ),
      (simulateMemristor getCur upd m V_seq dt)[k]? =
        (V_seq[k]?).map (getCur (stateAfter upd m (V_seq.take k) dt)) := by
  intro V_seq
  induction V_seq with
  | nil => intro m k; simp [simulateMemristor]
  | cons V rest ih =>
    intro m k
    cases k with
    | zero => simp [simulateMemristor, stateAfter]
    | succ k =>
      simpa [simulateMemristor, stateAfter] using ih (upd m V dt) k

/-- C3: for every model, voltage sequence and `dt`, the driver computes the
current at step `k` on the state reached by advancing through the first `k`
samples only — i.e. on the state before step `k`'s own `updateState` call —
and in particular the first reported current is the current at the model's
initial, unadvanced state. -/
theorem simulate_step_ordering {σ : Type} (getCur : σ → ℝ → ℝ)
    (upd : σ → ℝ → ℝ → σ) (m : σ) (V_seq : List ℝ) (dt : ℝ) :
    (∀ k : ℕ,
      (simulateMemristor getCur upd m V_seq dt)[k]? =
        (V_seq[k]?).map (getCur (stateAfter upd m (V_seq.take k) dt))) ∧
    (simulateMemristor getCur upd m V_seq dt)[0]? =
      (V_seq[0]?).map (getCur m) :=
  ⟨fun k => simulateMemristor_getElem getCur upd dt V_seq m k,
   by simpa [stateAfter] using simulateMemristor_getElem getCur upd dt V_seq m 0⟩

/-- Splitting a division by a product into a division times an inverted
exponential factor. -/
lemma div_mul_exp_neg (v R z : ℝ) :
    v / R * Real.exp (-z) = v / (R * Real.exp z) := by
  rw [Real.exp_neg, div_eq_mul_inv v (R * Real.exp z), mul_inv, ← mul_assoc,
    ← div_eq_mul_inv v R]

/-- The current read by the VTEAM model equals voltage over the stored
memristance, on every state produced by `_updateMemristance`. -/
lemma VTEAMMemristor.getCurrent_eq_div_M (m : VTEAMMemristor) (v : ℝ) :
    m.updMem.getCurrent v = v / m.updMem.M := by
  simp only [VTEAMMemristor.getCurrent, VTEAMMemristor.updMem, neg_div,
    neg_mul]
  exact div_mul_exp_neg v m.R_on
    (Real.log (m.R_off / m.R_on) / (m.w_off - m.w_on) * (m.w - m.w_on))

/-- C2, amended: on every state produced by `_updateMemristance` (i.e. after
construction and after every `updateState` call), the Biolek, Joglekar,
linear ion drift, VTEAM and MMS models return `current(v) = v / M = v * W`;
the Yakopcic model instead returns the asymmetric sinh law
`(if 0 ≤ v then a1 else a2) * x * sinh(b * v)`, a pure function of the
present state and voltage which in general differs from `v / M`. -/
theorem current_law_amended
    (bm : BiolekMemristor) (jm : JoglekarMemristor)
    (lm : LinearIonDriftMemristor) (vm : VTEAMMemristor) (mm : MMSMemristor)
    (ym : YakopcicMemristor) (v : ℝ) :
    (bm.updMem.getCurrent v = v / bm.updMem.M ∧
      bm.updMem.getCurrent v = v * bm.updMem.W) ∧
    (jm.updMem.getCurrent v = v / jm.updMem.M ∧
      jm.updMem.getCurrent v = v * jm.updMem.W) ∧
    (lm.updMem.getCurrent v = v / lm.updMem.M ∧
      lm.updMem.getCurrent v = v * lm.updMem.W) ∧
    (vm.updMem.getCurrent v = v / vm.updMem.M ∧
      vm.updMem.getCurrent v = v * vm.updMem.W) ∧
    (mm.updMem.getCurrent v = v / mm.updMem.M ∧
      mm.updMem.getCurrent v = v * mm.updMem.W) ∧
    ym.getCurrent v = (if 0 ≤ v then ym.a1 else ym.a2) * ym.x
      * Real.sinh (ym.b * v) := by
  refine ⟨⟨rfl, ?_⟩, ⟨rfl, ?_⟩, ⟨rfl, ?_⟩,
    ⟨vm.getCurrent_eq_div_M v, ?_⟩, ⟨?_, rfl⟩, ?_⟩
  · simp only [BiolekMemristor.getCurrent, BiolekMemristor.updMem,
      mul_one_div]
  · simp only [JoglekarMemristor.getCurrent, JoglekarMemristor.updMem,
      mul_one_div]
  · simp only [LinearIonDriftMemristor.getCurrent,
      LinearIonDriftMemristor.updMem, mul_one_div]
  · have hW : vm.updMem.W = 1 / vm.updMem.M := rfl
    rw [hW, mul_one_div]
    exact vm.getCurrent_eq_div_M v
  · have hM : mm.updMem.M = 1 / mm.updMem.W := rfl
    rw [hM, one_div, div_inv_eq_mul]
    rfl
  · by_cases h : 0 ≤ v <;> simp [YakopcicMemristor.getCurrent, h]

/-- Counterexample to C2 as stated: for the Yakopcic model constructed at the
source defaults with the UI's initial state `x_init = 0.11` and voltage
`v = 2`, the returned current `a1 * x * sinh(b * 2)` differs from `v / M`,
because `sinh(2 * 0.05) = 2 * sinh(0.05) * cosh(0.05) > 2 * sinh(0.05)`. -/
theorem yakopcic_current_ne_div_M : ymUI.getCurrent 2 ≠ 2 / ymUI.M := by
  have hx : ymUI.x = 0.11 := by
    norm_num [ymUI, YakopcicMemristor.mk', YakopcicMemristor.updMem, min_def,
      max_def]
  have hM : ymUI.M = 1 / (0.17 * 0.11 * Real.sinh 0.05) := by
    simp only [ymUI, YakopcicMemristor.mk', YakopcicMemristor.updMem]
    norm_num [min_def, max_def]
  have hcur : ymUI.getCurrent 2 = 0.17 * 0.11 * Real.sinh (0.05 * 2) := by
    simp only [YakopcicMemristor.getCurrent, hx]
    norm_num [ymUI, YakopcicMemristor.mk', YakopcicMemristor.updMem, min_def,
      max_def]
  rw [hcur, hM, one_div, div_inv_eq_mul]
  have h2 : (0:ℝ) < Real.sinh 0.05 := Real.sinh_pos_iff.mpr (by norm_num)
  have h3 : (1:ℝ) < Real.cosh 0.05 := Real.one_lt_cosh.mpr (by norm_num)
  have h1 : Real.sinh (0.05 * 2) = 2 * Real.sinh 0.05 * Real.cosh 0.05 := by
    rw [show (0.05:ℝ) * 2 = 2 * 0.05 by norm_num]
    exact Real.sinh_two_mul 0.05
  rw [h1]
  intro heq
  nlinarith

/-- C5: one `updateState` step of the linear ion drift model at the default
parameters `mu_v = 1e-9`, `D = 1e-8`, `R_ON = 100`, `R_OFF = 16000`, initial
state `w = D/2`, voltage `V = 1`, `dt = 1e-9`, produces exactly
`w_new = w_old + mu_v * (R_ON / D) * (V / M_old) * dt` with
`M_old = (R_ON + R_OFF) / 2`. -/
theorem linear_single_step_closed_form :
    (LinearIonDriftMemristor.mk' 1e-9 1e-8 100 16000 none).M
        = (100 + 16000) / 2 ∧
    ((LinearIonDriftMemristor.mk' 1e-9 1e-8 100 16000 none).updateState
        1 1e-9).w
      = 1e-8 / 2 + 1e-9 * (100 / 1e-8) * (1 / ((100 + 16000) / 2)) * 1e-9 := by
  constructor
  · norm_num [LinearIonDriftMemristor.mk', LinearIonDriftMemristor.updMem]
  · norm_num [LinearIonDriftMemristor.mk', LinearIonDriftMemristor.updMem,
      LinearIonDriftMemristor.updateState, LinearIonDriftMemristor.getCurrent,
      min_def, max_def]

/-! ## Memristance positivity (claim C4) -/

/-- Yakopcic model constructed with all source-default arguments
(`x_init = 0`, `x_on = 0`). -/
def ymZero : YakopcicMemristor :=
  YakopcicMemristor.mk' 4000 4000 0.5 0.5 1 5 0.3 0.3 0.17 0.17 0.05 0 0

/-- Counterexample to C4 as stated: the default-constructed Yakopcic model
has state `x = 0`, hence stored conductance `W = a1 * 0 * sinh b = 0` and
memristance `M = 1 / 0` — a division by zero (`Infinity` in the source's
IEEE arithmetic, `0` in the real-number embedding), not a strictly positive
real resistance. -/
theorem yakopcic_default_M_not_pos : ¬ (0 < ymZero.M) := by
  have h : ymZero.M = 0 := by
    simp only [ymZero, YakopcicMemristor.mk', YakopcicMemristor.updMem]
    norm_num
  rw [h]
  exact lt_irrefl 0

/-- The memristance stored after a Biolek step, in terms of the clamped
state. -/
lemma biolek_updateState_M (m : BiolekMemristor) (V dt : ℝ) :
    (m.updateState V dt).M =
      m.R_ON * ((m.updateState V dt).w / m.D)
        + m.R_OFF * (1 - (m.updateState V dt).w / m.D) := by
  simp only [BiolekMemristor.updateState, BiolekMemristor.updMem]

/-- Biolek memristance positivity after a step. -/
lemma biolek_M_pos (m : BiolekMemristor) (V dt : ℝ)
    (h1 : 0 < m.R_ON) (h2 : 0 < m.R_OFF) (hD : 0 < m.D) :
    0 < (m.updateState V dt).M := by
  obtain ⟨hw0, hw1⟩ := biolek_w_mem m V dt hD.le
  rw [biolek_updateState_M]
  exact convex_comb_pos h1 h2 (div_nonneg hw0 hD.le) ((div_le_one hD).mpr hw1)

/-- The memristance stored after a Joglekar step. -/
lemma joglekar_updateState_M (m : JoglekarMemristor) (V dt : ℝ) :
    (m.updateState V dt).M =
      m.R_ON * ((m.updateState V dt).w / m.D)
        + m.R_OFF * (1 - (m.updateState V dt).w / m.D) := by
  simp only [JoglekarMemristor.updateState, JoglekarMemristor.updMem]

/-- Joglekar memristance positivity after a step. -/
lemma joglekar_M_pos (m : JoglekarMemristor) (V dt : ℝ)
    (h1 : 0 < m.R_ON) (h2 : 0 < m.R_OFF) (hD : 0 < m.D) :
    0 < (m.updateState V dt).M := by
  obtain ⟨hw0, hw1⟩ := joglekar_w_mem m V dt hD.le
  rw [joglekar_updateState_M]
  exact convex_comb_pos h1 h2 (div_nonneg hw0 hD.le) ((div_le_one hD).mpr hw1)

/-- The memristance stored after a linear ion drift step. -/
lemma linear_updateState_M (m : LinearIonDriftMemristor)
    (V dt : ℝ) :
    (m.updateState V dt).M =
      m.R_ON * ((m.updateState V dt).w / m.D)
        + m.R_OFF * (1 - (m.updateState V dt).w / m.D) := by
  simp only [LinearIonDriftMemristor.updateState, LinearIonDriftMemristor.updMem]

/-- Linear ion drift memristance positivity after a step. -/
lemma linear_M_pos (m : LinearIonDriftMemristor) (V dt : ℝ)
    (h1 : 0 < m.R_ON) (h2 : 0 < m.R_OFF) (hD : 0 < m.D) :
    0 < (m.updateState V dt).M := by
  obtain ⟨hw0, hw1⟩ := linear_w_mem m V dt hD.le
  rw [linear_updateState_M]
  exact convex_comb_pos h1 h2 (div_nonneg hw0 hD.le) ((div_le_one hD).mpr hw1)

/-- The memristance stored after a VTEAM step. -/
lemma vteam_updateState_M (m : VTEAMMemristor) (u dt : ℝ) :
    (m.updateState u dt).M =
      m.R_on * Real.exp (Real.log (m.R_off / m.R_on) / (m.w_off - m.w_on)
        * ((m.updateState u dt).w - m.w_on)) := by
  simp only [VTEAMMemristor.updateState, VTEAMMemristor.updMem]

/-- VTEAM memristance positivity after a step. -/
lemma vteam_M_pos (m : VTEAMMemristor) (u dt : ℝ)
    (h : 0 < m.R_on) : 0 < (m.updateState u dt).M := by
  rw [vteam_updateState_M]
  exact mul_pos h (Real.exp_pos _)

/-- The memristance stored after an MMS step. -/
lemma mms_updateState_M (m : MMSMemristor) (V dt : ℝ) :
    (m.updateState V dt).M =
      1 / ((m.updateState V dt).x / m.R_on
        + (1 - (m.updateState V dt).x) / m.R_off) := by
  simp only [MMSMemristor.updateState, MMSMemristor.updMem]

/-- MMS memristance positivity after a step. -/
lemma mms_M_pos (m : MMSMemristor) (V dt : ℝ)
    (h1 : 0 < m.R_on) (h2 : 0 < m.R_off) : 0 < (m.updateState V dt).M := by
  obtain ⟨hx0, hx1⟩ := mms_x_mem m V dt
  rw [mms_updateState_M]
  apply one_div_pos.mpr
  have heq : (m.updateState V dt).x / m.R_on
      + (1 - (m.updateState V dt).x) / m.R_off
      = 1 / m.R_on * (m.updateState V dt).x
        + 1 / m.R_off * (1 - (m.updateState V dt).x) := by ring
  rw [heq]
  exact convex_comb_pos (one_div_pos.mpr h1) (one_div_pos.mpr h2) hx0 hx1

/-- The memristance stored after a Yakopcic step. -/
lemma yakopcic_updateState_M (m : YakopcicMemristor) (u dt : ℝ) :
    (m.updateState u dt).M =
      1 / (m.a1 * (m.updateState u dt).x * Real.sinh m.b) := by
  simp only [YakopcicMemristor.updateState, YakopcicMemristor.updMem]

/-- Yakopcic memristance positivity after a step, under a strictly positive
state floor. -/
lemma yakopcic_M_pos (m : YakopcicMemristor) (u dt : ℝ)
    (ha : 0 < m.a1) (hb : 0 < m.b) (hx : 0 < m.x_on) (hx1 : m.x_on ≤ 1) :
    0 < (m.updateState u dt).M := by
  obtain ⟨h1, _⟩ := yakopcic_x_mem m u dt hx1
  rw [yakopcic_updateState_M]
  exact one_div_pos.mpr (mul_pos (mul_pos ha (lt_of_lt_of_le hx h1))
    (Real.sinh_pos_iff.mpr hb))

/-- C4, amended: after every `updateState` call (from any pre-step state,
hence on the full reachable domain), the stored memristance `M` is strictly
positive for every variant, provided the variant's resistance/geometry
parameters are strictly positive — and, for the Yakopcic variant, provided
additionally `0 < a1`, `0 < b` and a strictly positive state floor
`0 < x_on ≤ 1` (when the state `x` can reach `0`, as it does with the
default `x_on = 0`, Yakopcic's `W` vanishes and `M = 1/W` is a division by
zero rather than a positive resistance). -/
theorem memristance_pos_amended
    (bm : BiolekMemristor) (jm : JoglekarMemristor)
    (lm : LinearIonDriftMemristor) (vm : VTEAMMemristor) (mm : MMSMemristor)
    (ym : YakopcicMemristor) (V dt : ℝ) :
    (0 < bm.R_ON → 0 < bm.R_OFF → 0 < bm.D → 0 < (bm.updateState V dt).M) ∧
    (0 < jm.R_ON → 0 < jm.R_OFF → 0 < jm.D → 0 < (jm.updateState V dt).M) ∧
    (0 < lm.R_ON → 0 < lm.R_OFF → 0 < lm.D → 0 < (lm.updateState V dt).M) ∧
    (0 < vm.R_on → 0 < (vm.updateState V dt).M) ∧
    (0 < mm.R_on → 0 < mm.R_off → 0 < (mm.updateState V dt).M) ∧
    (0 < ym.a1 → 0 < ym.b → 0 < ym.x_on → ym.x_on ≤ 1 →
      0 < (ym.updateState V dt).M) :=
  ⟨biolek_M_pos bm V dt, joglekar_M_pos jm V dt, linear_M_pos lm V dt, vteam_M_pos vm V dt,
    mms_M_pos mm V dt, yakopcic_M_pos ym V dt⟩

/-- Witness for `memristance_pos_amended` at the default instances (with the
positive-floor Yakopcic instance `ymPos`), `V = 1`, `dt = 1e-9`. -/
theorem memristance_pos_amended_witness :
    (0 < bmDefault.R_ON ∧ 0 < bmDefault.R_OFF ∧ 0 < bmDefault.D ∧
      0 < ymPos.a1 ∧ 0 < ymPos.b ∧ 0 < ymPos.x_on ∧ ymPos.x_on ≤ 1) ∧
    0 < (bmDefault.updateState 1 1e-9).M ∧
    0 < (jmDefault.updateState 1 1e-9).M ∧
    0 < (lmDefault.updateState 1 1e-9).M ∧
    0 < (vmDefault.updateState 1 1e-9).M ∧
    0 < (mmDefault.updateState 1 1e-9).M ∧
    0 < (ymPos.updateState 1 1e-9).M := by
  have h := memristance_pos_amended bmDefault jmDefault lmDefault vmDefault
    mmDefault ymPos 1 1e-9
  refine ⟨⟨?_, ?_, ?_, ?_, ?_, ?_, ?_⟩, h.1 ?_ ?_ ?_, h.2.1 ?_ ?_ ?_,
    h.2.2.1 ?_ ?_ ?_, h.2.2.2.1 ?_, h.2.2.2.2.1 ?_ ?_,
    h.2.2.2.2.2 ?_ ?_ ?_ ?_⟩ <;>
    norm_num [bmDefault, jmDefault, lmDefault, vmDefault, mmDefault, ymPos,
      BiolekMemristor.mk', BiolekMemristor.updMem, JoglekarMemristor.mk',
      JoglekarMemristor.updMem, LinearIonDriftMemristor.mk',
      LinearIonDriftMemristor.updMem, VTEAMMemristor.mk',
      VTEAMMemristor.updMem, MMSMemristor.mk', MMSMemristor.updMem,
      YakopcicMemristor.mk', YakopcicMemristor.updMem]

/-! ## Waveform generator properties (claims C6, C7) -/

/-- C6: an unrecognized waveform family name is not an error: for every time
vector, frequency and amplitude, the generator returns exactly the sequence
it returns for the family `sine`. -/
theorem unknown_waveform_falls_back_to_sine (type : String) (t : List ℝ)
    (f A : ℝ) (h1 : type ≠ "sine") (h2 : type ≠ "square")
    (h3 : type ≠ "triangle") (h4 : type ≠ "sawtooth") :
    generateWaveform type t f A = generateWaveform "sine" t f A := by
  simp only [generateWaveform, if_neg h1, if_neg h2, if_neg h3, if_neg h4,
    if_pos rfl, if_true]

/-- Witness for `unknown_waveform_falls_back_to_sine` at the family name
`bogus`. -/
theorem unknown_waveform_falls_back_to_sine_witness :
    ("bogus" : String) ≠ "sine" ∧
      generateWaveform "bogus" [0, 1] 1 1 = generateWaveform "sine" [0, 1] 1 1 :=
  ⟨by decide,
    unknown_waveform_falls_back_to_sine "bogus" [0, 1] 1 1 (by decide)
      (by decide) (by decide) (by decide)⟩

/-- On nonnegative arguments the JavaScript remainder is the floor-based
remainder. -/
lemma jsMod_of_nonneg (x y : ℝ) (hx : 0 ≤ x) (hy : 0 ≤ y) :
    jsMod x y = x - y * (⌊x / y⌋ : ℝ) := by
  rw [jsMod, jsTrunc, if_pos (div_nonneg hx hy)]

/-- C7: for every list of nonnegative time samples and every frequency
`f > 0`, each `sawtooth` sample equals `A * (phi / pi - 1)` where
`phi = (2*pi*f*t) mod 2*pi` is the floor-based phase in `[0, 2*pi)` — a
linear ramp from `-A` to `+A` once per period. -/
theorem sawtooth_formula (t : List ℝ) (f A : ℝ) (hf : 0 < f)
    (ht : ∀ x ∈ t, 0 ≤ x) :
    generateWaveform "sawtooth" t f A =
      t.map (fun time => A * ((2 * Real.pi * f * time
        - 2 * Real.pi * (⌊2 * Real.pi * f * time / (2 * Real.pi)⌋ : ℝ))
          / Real.pi - 1)) := by
  have hne1 : ("sawtooth" : String) ≠ "sine" := by decide
  have hne2 : ("sawtooth" : String) ≠ "square" := by decide
  have hne3 : ("sawtooth" : String) ≠ "triangle" := by decide
  simp only [generateWaveform, if_neg hne1, if_neg hne2, if_neg hne3,
    if_pos rfl]
  refine List.map_congr_left fun time htime => ?_
  have hx : 0 ≤ 2 * Real.pi * f * time :=
    mul_nonneg (by positivity) (ht time htime)
  rw [jsMod_of_nonneg _ _ hx (by positivity)]
  have hpi : Real.pi ≠ 0 := Real.pi_ne_zero
  field_simp
  ring

/-- Witness for `sawtooth_formula` on the one-sample time vector `[0]` with
`f = 1`, `A = 1`. -/
theorem sawtooth_formula_witness :
    (0 : ℝ) < 1 ∧
      generateWaveform "sawtooth" [0] 1 1 =
        ([0] : List ℝ).map (fun time => 1 * ((2 * Real.pi * 1 * time
          - 2 * Real.pi * (⌊2 * Real.pi * 1 * time / (2 * Real.pi)⌋ : ℝ))
            / Real.pi - 1)) :=
  ⟨by norm_num,
    sawtooth_formula [0] 1 1 (by norm_num)
      (by intro x hx; rw [List.mem_singleton] at hx; simp [hx])⟩

end
